import Mathlib

/-!
Verification of the commit-canvas CLI core: the date-resolution fold
(`src/mod.ts`), the timestamp utilities (`src/L_time.ts`) and the
commit-sequencing phase (`src/date_to_commit.ts` with the snapshot and
rollback logic of `src/mod.ts`).

Instants are modelled as integers counting minutes since the Unix epoch in
local wall-clock time, matching a JS `Date` at the minute precision the
program uses: date-fns `addMinutes` shifts by one minute, date-fns `addDays`
on a midnight-based instant shifts by whole 1440-minute days (the program
only ever adds days to instants produced by `parseDate`, which sit at local
midnight, and the model assumes a fixed-offset time zone), and the display
time-zone offset is a run-wide integer constant `tz` in minutes, the value
of `Date.prototype.getTimezoneOffset`.
-/

namespace CommitCanvas

/-- date-fns `addMinutes`: shift an instant by `n` minutes. -/
def addMinutes (t : Int) (n : Int) : Int := t + n

/-- date-fns `addHours`: shift an instant by `n` hours. -/
def addHours (t : Int) (n : Int) : Int := t + n * 60

/-- date-fns `addDays` on a midnight-based instant in a fixed-offset zone:
`n` calendar days are `n * 1440` minutes. -/
def addDays (t : Int) (n : Int) : Int := t + n * 1440

/-- Day number of the civil date `y-m-d` counted from 1970-01-01
(Howard Hinnant's `days_from_civil` algorithm). -/
def daysFromCivil (y m d : Nat) : Int :=
  let yy : Int := if m ≤ 2 then (y : Int) - 1 else (y : Int)
  let era : Int := Int.fdiv yy 400
  let yoe : Nat := (yy - era * 400).toNat
  let doy : Nat := (153 * (if 2 < m then m - 3 else m + 9) + 2) / 5 + d - 1
  let doe : Nat := yoe * 365 + yoe / 4 - yoe / 100 + doy
  era * 146097 + (doe : Int) - 719468

/-- `L_time.parseDate`: a strict `YYYY-MM-DD` string parsed to the instant
at local midnight of that calendar date. -/
def parseDate (y m d : Nat) : Int := daysFromCivil y m d * 1440

/-- Civil date `(year, month, day)` of a day number counted from 1970-01-01
(Howard Hinnant's `civil_from_days` algorithm). -/
def civilFromDays (z0 : Int) : Int × Nat × Nat :=
  let z : Int := z0 + 719468
  let era : Int := Int.fdiv z 146097
  let doe : Nat := (z - era * 146097).toNat
  let yoe : Nat := (doe - doe / 1460 + doe / 36524 - doe / 146096) / 365
  let y : Int := (yoe : Int) + era * 400
  let doy : Nat := doe - (365 * yoe + yoe / 4 - yoe / 100)
  let mp : Nat := (5 * doy + 2) / 153
  let d : Nat := doy - (153 * mp + 2) / 5 + 1
  let m : Nat := if mp < 10 then mp + 3 else mp - 9
  (if m ≤ 2 then y + 1 else y, m, d)

/-- JS `Date.prototype.getFullYear` of an instant in minutes. -/
def yearOf (t : Int) : Int := (civilFromDays (Int.fdiv t 1440)).1

/-- `L_time.normalizeDate`: add one hour, then subtract the time-zone offset
(the `new Date(...toISOString())` round-trip does not change the instant). -/
def normalizeDate (tz : Int) (t : Int) : Int := addMinutes (addHours t 1) (-tz)

/-- Calendar year of `L_time.futureNow`: `setFullYear(getFullYear() + 74)`
always lands in year `currentYear + 74`. -/
def futureNowYear (currentYear : Int) : Int := currentYear + 74

/-- JS `String(n).padStart(2, "0")`: pad a rendered number on the left with
one zero when it has a single digit. -/
def padStart2 (n : Nat) : String := if n < 10 then "0" ++ Nat.repr n else Nat.repr n

/-- `L_time.formatMilliseconds`. -/
def formatMilliseconds (ms : Nat) : String :=
  let totalSeconds := ms / 1000 + 1
  let minutes := (totalSeconds % 3600) / 60
  let seconds := totalSeconds % 60
  padStart2 minutes ++ "m " ++ padStart2 seconds ++ "s"

/-- The run-wide direction flag, validated by `mod.ts` to be `+` or `-`. -/
inductive Direction
  | plus
  | minus
deriving DecidableEq

/-- `const dir = config.direction === '+' ? 1 : -1`. -/
def Direction.toInt : Direction → Int
  | .plus => 1
  | .minus => -1

/-- One positional input token, as classified by the resolver fold in
`mod.ts`: an all-digits string (`/^\d+$/`) is a relative day offset, a
`/^\d{4}-\d{2}-\d{2}$/` string is an absolute calendar date, and anything
else falls into the error branch. -/
inductive RawToken
  | num (n : Nat)
  | date (y m : Nat) (d : Nat)
  | invalid
deriving DecidableEq

/-- Tokens matching one of the two recognised patterns. -/
def RawToken.wellFormed : RawToken → Bool
  | .invalid => false
  | _ => true

/-- Errors thrown inside the resolver fold of `mod.ts`. -/
inductive ResolveError
  | sequencingError
  | impossibleOnlyDate
  | impossibleFullTime
  | formatError
deriving DecidableEq

/-- The two mutable variables threaded through the fold in `mod.ts`. -/
structure ResolverState where
  previousDate : Option Int
  previousDate_onlyDate : Option Int
deriving DecidableEq

/-- One iteration of the `config._.forEach` body in `mod.ts`: returns the
resolved (pre-`normalizeDate`) instant together with the updated state. -/
def step (dir : Direction) (st : ResolverState) : RawToken → Except ResolveError (Int × ResolverState)
  | .num n =>
    let daysToAdd : Int := (n : Int) * dir.toInt
    match st.previousDate with
    | some previousDate =>
      if daysToAdd = 0 then
        let thisDate := addMinutes previousDate 1
        .ok (thisDate, { st with previousDate := some thisDate })
      else
        match st.previousDate_onlyDate with
        | none => .error .impossibleOnlyDate
        | some previousOnly =>
          let thisDate := addDays previousOnly daysToAdd
          .ok (thisDate, ⟨some thisDate, some thisDate⟩)
    | none => .error .sequencingError
  | .date y m d =>
    let t := parseDate y m d
    if st.previousDate = some t then
      let thisDate := addMinutes t 1
      .ok (thisDate, { st with previousDate := some thisDate })
    else if st.previousDate_onlyDate = some t then
      match st.previousDate with
      | none => .error .impossibleFullTime
      | some previousDate =>
        let thisDate := addMinutes previousDate 1
        .ok (thisDate, { st with previousDate := some thisDate })
    else
      .ok (t, ⟨some t, some t⟩)
  | .invalid => .error .formatError

/-- The fold over the token list: each resolved instant is pushed through
`normalizeDate` into the output (`dates.push(normalizeDate(thisDate))`). -/
def resolveAux (tz : Int) (dir : Direction) : ResolverState → List RawToken → Except ResolveError (List Int)
  | _, [] => .ok []
  | st, tok :: rest =>
    match step dir st tok with
    | .error e => .error e
    | .ok (t, st2) =>
      match resolveAux tz dir st2 rest with
      | .error e => .error e
      | .ok out => .ok (normalizeDate tz t :: out)

/-- The whole date-preparation IIFE of `mod.ts`: both state variables start
empty. -/
def resolve (tz : Int) (dir : Direction) (tokens : List RawToken) : Except ResolveError (List Int) :=
  resolveAux tz dir ⟨none, none⟩ tokens

/-- The two range errors thrown in the validation callback of
`date_to_commit.processDates`. -/
inductive DateRangeError
  | before1970
  | afterFuture
deriving DecidableEq

/-- The validation body of the `dates.filter` callback in `processDates`:
reject years before 1970 and years after `futureNow.getFullYear() - 1`. -/
def checkDateRange (futureYear : Int) (t : Int) : Except DateRangeError Unit :=
  if yearOf t < 1970 then .error .before1970
  else if yearOf t > futureYear - 1 then .error .afterFuture
  else .ok ()

/-- Whether an `Except` holds a success value. -/
def exceptOk {ε α : Type} : Except ε α → Bool
  | .ok _ => true
  | .error _ => false

/-- The `dates.filter(...)` pass of `processDates`: in lenient
(`let-it-go`) mode a failing date is logged and dropped, otherwise the
first failing date throws and aborts the whole pass. -/
def filterDates (lenient : Bool) (futureYear : Int) : List Int → Except DateRangeError (List Int)
  | [] => .ok []
  | t :: rest =>
    match checkDateRange futureYear t with
    | .ok _ =>
      match filterDates lenient futureYear rest with
      | .ok kept => .ok (t :: kept)
      | .error e => .error e
    | .error e => if lenient then filterDates lenient futureYear rest else .error e

/-- Errors escaping `processDates`: a range error from validation or a
commit failure from the apply loop. -/
inductive RunError
  | range (e : DateRangeError)
  | commitFailure
deriving DecidableEq

/-- The commit loop of `processDateStrings`. The repository is the list of
commits, newest first; `ok i` says whether the i-th commit attempt
(0-indexed) succeeds. In lenient mode a failure is logged and skipped,
otherwise it throws, carrying the repository as mutated so far. -/
def applyCommits (lenient : Bool) (ok : Nat → Bool) : Nat → List Int → List Int → Except (RunError × List Int) (List Int)
  | _, repo, [] => .ok repo
  | i, repo, d :: rest =>
    if ok i then applyCommits lenient ok (i + 1) (d :: repo) rest
    else if lenient then applyCommits lenient ok (i + 1) repo rest
    else .error (.commitFailure, repo)

/-- `date_to_commit.processDates`: validate and filter the dates, then run
the commit loop on the kept ones. A range error is raised before any
commit, so it carries the repository unchanged. -/
def processDates (lenient : Bool) (ok : Nat → Bool) (futureYear : Int) (repo : List Int) (dates : List Int) : Except (RunError × List Int) (List Int) :=
  match filterDates lenient futureYear dates with
  | .error e => .error (.range e, repo)
  | .ok kept => applyCommits lenient ok 0 repo kept

/-- Outcome of the guarded commit phase. -/
inductive SeqOutcome
  | success
  | rolledBack
deriving DecidableEq

/-- The snapshot and try/catch around `processDates` in `mod.ts`: capture
the current head, run `processDates`, and on any error hard-reset to the
captured head. Returns the outcome, the final repository, and whether
`hardResetToCommit` was executed. -/
def runSequencer (lenient : Bool) (ok : Nat → Bool) (futureYear : Int) (repo : List Int) (dates : List Int) : SeqOutcome × List Int × Bool :=
  let theHashBeforeCommits := repo
  match processDates lenient ok futureYear repo dates with
  | .ok repo2 => (.success, repo2, false)
  | .error _ => (.rolledBack, theHashBeforeCommits, true)

/-- Result of the resolve-then-commit pipeline of `mod.ts`. -/
inductive PipelineResult
  | resolverError (e : ResolveError)
  | success
  | rolledBack
deriving DecidableEq

/-- The date-preparation fold followed by the guarded commit phase: a
resolver error propagates to the top-level catch before the snapshot is
taken, so no commit is created and no hard reset runs. -/
def runPipeline (tz : Int) (dir : Direction) (lenient : Bool) (ok : Nat → Bool) (currentYear : Int) (repo : List Int) (tokens : List RawToken) : PipelineResult × List Int × Bool :=
  match resolve tz dir tokens with
  | .error e => (.resolverError e, repo, false)
  | .ok dates =>
    match runSequencer lenient ok (futureNowYear currentYear) repo dates with
    | (.success, r, b) => (.success, r, b)
    | (.rolledBack, r, b) => (.rolledBack, r, b)

/-- Modelled from the spec's words for the duration-formatting claim: a
whole-second count rendered as `MMm SSs` with `MM` the total minutes
(`tot / 60`) and `SS` the leftover seconds (`tot % 60`), both zero-padded. -/
def specFormatSeconds (tot : Nat) : String :=
  padStart2 (tot / 60) ++ "m " ++ padStart2 (tot % 60) ++ "s"

/-! ### Step lemmas for the resolver fold -/

/-- An absolute date seen with both state variables empty resolves to its
own midnight instant and seeds both state variables. -/
theorem step_date_fresh_start (dir : Direction) (y m d : Nat) :
    step dir ⟨none, none⟩ (.date y m d) =
      .ok (parseDate y m d, ⟨some (parseDate y m d), some (parseDate y m d)⟩) := rfl

/-- A zero offset nudges `previousDate` by one minute and leaves
`previousDate_onlyDate` untouched. -/
theorem step_num_zero (dir : Direction) (p q : Int) :
    step dir ⟨some p, some q⟩ (.num 0) =
      .ok (addMinutes p 1, ⟨some (addMinutes p 1), some q⟩) := by
  have h : ((0 : Nat) : Int) * dir.toInt = 0 := by simp
  simp [step, h]

/-- A nonzero offset measures from `previousDate_onlyDate` and updates both
state variables to the landing instant. -/
theorem step_num_nonzero (dir : Direction) (p q : Int) (n : Nat) (hn : n ≠ 0) :
    step dir ⟨some p, some q⟩ (.num n) =
      .ok (addDays q ((n : Int) * dir.toInt),
           ⟨some (addDays q ((n : Int) * dir.toInt)),
            some (addDays q ((n : Int) * dir.toInt))⟩) := by
  have h : ((n : Nat) : Int) * dir.toInt ≠ 0 := by
    have h1 : ((n : Nat) : Int) ≠ 0 := Int.natCast_ne_zero.mpr hn
    have h2 : dir.toInt ≠ 0 := by cases dir <;> decide
    exact mul_ne_zero h1 h2
  simp [step, h]

/-- An absolute date equal to `previousDate` is disambiguated by one
minute; `previousDate_onlyDate` is untouched. -/
theorem step_date_repeat (dir : Direction) (q : Int) (y m d : Nat) :
    step dir ⟨some (parseDate y m d), some q⟩ (.date y m d) =
      .ok (addMinutes (parseDate y m d) 1,
           ⟨some (addMinutes (parseDate y m d) 1), some q⟩) := by
  simp [step]

/-- An absolute date differing from `previousDate` but equal to
`previousDate_onlyDate` resolves to `previousDate` plus one minute;
`previousDate_onlyDate` is untouched. -/
theorem step_date_onlyDate_match (dir : Direction) (p : Int) (y m d : Nat)
    (hp : p ≠ parseDate y m d) :
    step dir ⟨some p, some (parseDate y m d)⟩ (.date y m d) =
      .ok (addMinutes p 1, ⟨some (addMinutes p 1), some (parseDate y m d)⟩) := by
  simp [step, hp]

/-- An absolute date matching neither state variable resolves to its own
midnight instant and overwrites both state variables. -/
theorem step_date_fresh (dir : Direction) (p q : Int) (y m d : Nat)
    (hp : p ≠ parseDate y m d) (hq : q ≠ parseDate y m d) :
    step dir ⟨some p, some q⟩ (.date y m d) =
      .ok (parseDate y m d, ⟨some (parseDate y m d), some (parseDate y m d)⟩) := by
  simp [step, hp, hq]

/-! ### Claim theorems: resolver -/

/-- C1: resolving `[D, 0, D]` for any valid calendar date `D` and either
direction yields the three pairwise distinct instants `D`, `D + 1` minute
and `D + 2` minutes, in that order, each passed through `normalizeDate`
exactly once, and the zero-offset step leaves `previousDate_onlyDate`
unchanged. -/
theorem c1_collision_rule (tz : Int) (dir : Direction) (y m d : Nat) :
    resolve tz dir [.date y m d, .num 0, .date y m d] =
      .ok [normalizeDate tz (parseDate y m d),
           normalizeDate tz (addMinutes (parseDate y m d) 1),
           normalizeDate tz (addMinutes (parseDate y m d) 2)] ∧
    (normalizeDate tz (parseDate y m d) ≠ normalizeDate tz (addMinutes (parseDate y m d) 1) ∧
     normalizeDate tz (parseDate y m d) ≠ normalizeDate tz (addMinutes (parseDate y m d) 2) ∧
     normalizeDate tz (addMinutes (parseDate y m d) 1) ≠
       normalizeDate tz (addMinutes (parseDate y m d) 2)) ∧
    step dir ⟨some (parseDate y m d), some (parseDate y m d)⟩ (.num 0) =
      .ok (addMinutes (parseDate y m d) 1,
           ⟨some (addMinutes (parseDate y m d) 1), some (parseDate y m d)⟩) := by
  refine ⟨?_, ⟨?_, ?_, ?_⟩, step_num_zero dir _ _⟩
  · have s1 := step_date_fresh_start dir y m d
    have s2 := step_num_zero dir (parseDate y m d) (parseDate y m d)
    have s3 := step_date_onlyDate_match dir (addMinutes (parseDate y m d) 1) y m d
      (by unfold addMinutes; omega)
    simp only [resolve, resolveAux, s1, s2, s3]
    unfold normalizeDate addMinutes addHours
    norm_num
    omega
  · unfold normalizeDate addMinutes addHours; omega
  · unfold normalizeDate addMinutes addHours; omega
  · unfold normalizeDate addMinutes addHours; omega

/-- C4: a token sequence opening with a relative offset (any `n`, either
direction) resolves to a `SequencingError`; it never defaults to a base
date. -/
theorem c4_offset_cannot_open (tz : Int) (dir : Direction) (n : Nat) (rest : List RawToken) :
    resolve tz dir (.num n :: rest) = .error .sequencingError := rfl

/-- C6: the tokens `["1990-12-23", "3"]` resolve, with direction `+`, to the
normalized instants of 1990-12-23 and 1990-12-26, and with direction `-` to
the normalized instants of 1990-12-23 and 1990-12-20. -/
theorem c6_end_to_end_offsets (tz : Int) :
    resolve tz .plus [.date 1990 12 23, .num 3] =
      .ok [normalizeDate tz (parseDate 1990 12 23),
           normalizeDate tz (parseDate 1990 12 26)] ∧
    resolve tz .minus [.date 1990 12 23, .num 3] =
      .ok [normalizeDate tz (parseDate 1990 12 23),
           normalizeDate tz (parseDate 1990 12 20)] := by
  have h26 : parseDate 1990 12 26 =
      addDays (parseDate 1990 12 23) ((3 : Nat) * Direction.plus.toInt) := by decide
  have h20 : parseDate 1990 12 20 =
      addDays (parseDate 1990 12 23) ((3 : Nat) * Direction.minus.toInt) := by decide
  constructor
  · rw [h26]
    simp only [resolve, resolveAux, step_date_fresh_start,
      step_num_nonzero Direction.plus _ _ 3 (by decide)]
  · rw [h20]
    simp only [resolve, resolveAux, step_date_fresh_start,
      step_num_nonzero Direction.minus _ _ 3 (by decide)]

/-- C7: the second element of resolving `[D, D]` equals the single element
of resolving `[D]` plus exactly one minute, for any valid calendar date `D`
and either direction. -/
theorem c7_idempotent_disambiguation (tz : Int) (dir : Direction) (y m d : Nat) :
    ∃ a, resolve tz dir [.date y m d] = .ok [a] ∧
         resolve tz dir [.date y m d, .date y m d] = .ok [a, addMinutes a 1] := by
  refine ⟨normalizeDate tz (parseDate y m d), ?_, ?_⟩
  · simp only [resolve, resolveAux, step_date_fresh_start]
  · simp only [resolve, resolveAux, step_date_fresh_start, step_date_repeat]
    unfold normalizeDate addMinutes addHours
    norm_num
    omega

/-- On a state with both variables populated, any well-formed token steps
successfully to a state with both variables still populated. -/
theorem step_wellFormed_total (dir : Direction) (tok : RawToken)
    (hwf : tok.wellFormed = true) (p q : Int) :
    ∃ t p2 q2, step dir ⟨some p, some q⟩ tok = .ok (t, ⟨some p2, some q2⟩) := by
  cases tok with
  | num n =>
    by_cases h : n = 0
    · subst h
      exact ⟨_, _, _, step_num_zero dir p q⟩
    · exact ⟨_, _, _, step_num_nonzero dir p q n h⟩
  | date y m d =>
    by_cases h1 : p = parseDate y m d
    · subst h1
      exact ⟨_, _, _, step_date_repeat dir q y m d⟩
    · by_cases h2 : q = parseDate y m d
      · subst h2
        exact ⟨_, _, _, step_date_onlyDate_match dir p y m d h1⟩
      · exact ⟨_, _, _, step_date_fresh dir p q y m d h1 h2⟩
  | invalid => simp [RawToken.wellFormed] at hwf

/-- From a state with both variables populated, the fold over any list of
well-formed tokens succeeds and emits one instant per token. -/
theorem resolveAux_wellFormed_total (tz : Int) (dir : Direction) :
    ∀ (l : List RawToken), (∀ tok ∈ l, tok.wellFormed = true) →
      ∀ (p q : Int), ∃ out, resolveAux tz dir ⟨some p, some q⟩ l = .ok out ∧
        out.length = l.length := by
  intro l
  induction l with
  | nil => exact fun _ p q => ⟨[], rfl, rfl⟩
  | cons tok rest ih =>
    intro hwf p q
    obtain ⟨t, p2, q2, hstep⟩ := step_wellFormed_total dir tok (hwf tok (by simp)) p q
    obtain ⟨out, hout, hlen⟩ := ih (fun x hx => hwf x (by simp [hx])) p2 q2
    refine ⟨normalizeDate tz t :: out, ?_, by simp [hlen]⟩
    simp only [resolveAux, hstep, hout]

/-- C3: every non-empty sequence of well-formed tokens that opens with an
absolute date resolves without error to exactly one normalized instant per
input token. -/
theorem c3_resolve_total (tz : Int) (dir : Direction) (y m d : Nat)
    (rest : List RawToken) (hwf : ∀ tok ∈ rest, tok.wellFormed = true) :
    ∃ out, resolve tz dir (.date y m d :: rest) = .ok out ∧
      out.length = (RawToken.date y m d :: rest).length := by
  obtain ⟨out, hout, hlen⟩ :=
    resolveAux_wellFormed_total tz dir rest hwf (parseDate y m d) (parseDate y m d)
  refine ⟨normalizeDate tz (parseDate y m d) :: out, ?_, by simp [hlen]⟩
  simp only [resolve, resolveAux, step_date_fresh_start, hout]

/-- Witness for C3 at the concrete input `["1990-12-23", "3"]`. -/
theorem c3_resolve_total_witness :
    ∃ out, resolve 0 .plus [.date 1990 12 23, .num 3] = .ok out ∧
      out.length = ([RawToken.date 1990 12 23, .num 3] : List RawToken).length :=
  c3_resolve_total 0 .plus 1990 12 23 [.num 3] (by decide)

/-- C10: collision avoidance is only local: `[D, n, D]` with any nonzero
offset `n` resolves successfully, but its first and third outputs are both
exactly the normalized `D` (a duplicate), while the middle output differs. -/
theorem c10_nonadjacent_duplicate (tz : Int) (dir : Direction) (y m d : Nat)
    (n : Nat) (hn : n ≠ 0) :
    resolve tz dir [.date y m d, .num n, .date y m d] =
      .ok [normalizeDate tz (parseDate y m d),
           normalizeDate tz (addDays (parseDate y m d) ((n : Int) * dir.toInt)),
           normalizeDate tz (parseDate y m d)] ∧
    normalizeDate tz (addDays (parseDate y m d) ((n : Int) * dir.toInt)) ≠
      normalizeDate tz (parseDate y m d) := by
  have hne : addDays (parseDate y m d) ((n : Int) * dir.toInt) ≠ parseDate y m d := by
    have h1 : ((n : Nat) : Int) ≠ 0 := Int.natCast_ne_zero.mpr hn
    have h2 : dir.toInt ≠ 0 := by cases dir <;> decide
    have h3 : ((n : Int) * dir.toInt) * 1440 ≠ 0 :=
      mul_ne_zero (mul_ne_zero h1 h2) (by norm_num)
    unfold addDays
    intro hcontra
    omega
  constructor
  · have s1 := step_date_fresh_start dir y m d
    have s2 := step_num_nonzero dir (parseDate y m d) (parseDate y m d) n hn
    have s3 := step_date_fresh dir
      (addDays (parseDate y m d) ((n : Int) * dir.toInt))
      (addDays (parseDate y m d) ((n : Int) * dir.toInt)) y m d hne hne
    simp only [resolve, resolveAux, s1, s2, s3]
  · unfold normalizeDate addMinutes addHours
    unfold addDays at hne ⊢
    omega

/-- Witness for C10 at `D = 1990-12-23`, `n = 1`, direction `+`. -/
theorem c10_nonadjacent_duplicate_witness :
    resolve 0 .plus [.date 1990 12 23, .num 1, .date 1990 12 23] =
      .ok [normalizeDate 0 (parseDate 1990 12 23),
           normalizeDate 0 (addDays (parseDate 1990 12 23) ((1 : Nat) * Direction.plus.toInt)),
           normalizeDate 0 (parseDate 1990 12 23)] ∧
    normalizeDate 0 (addDays (parseDate 1990 12 23) ((1 : Nat) * Direction.plus.toInt)) ≠
      normalizeDate 0 (parseDate 1990 12 23) :=
  c10_nonadjacent_duplicate 0 .plus 1990 12 23 1 (by decide)

/-! ### Claim theorems: sequencer -/

/-- In non-lenient mode, a failing position inside the commit loop makes
the whole loop throw a commit failure. -/
theorem applyCommits_strict_fails (ok : Nat → Bool) :
    ∀ (l : List Int) (i : Nat) (repo : List Int),
      (∃ j, j < l.length ∧ ok (i + j) = false) →
      ∃ r0, applyCommits false ok i repo l = .error (.commitFailure, r0) := by
  intro l
  induction l with
  | nil =>
    rintro i repo ⟨j, hj, _⟩
    exact absurd hj (by simp)
  | cons dd rest ih =>
    rintro i repo ⟨j, hj, hfail⟩
    by_cases hi : ok i = true
    · have hj0 : j ≠ 0 := by
        intro h
        subst h
        rw [Nat.add_zero] at hfail
        rw [hi] at hfail
        exact absurd hfail (by simp)
      obtain ⟨r0, hr⟩ := ih (i + 1) (dd :: repo)
        ⟨j - 1, by simp at hj; omega, by rw [show i + 1 + (j - 1) = i + j by omega]; exact hfail⟩
      exact ⟨r0, by simp [applyCommits, hi, hr]⟩
    · rw [Bool.not_eq_true] at hi
      exact ⟨repo, by simp [applyCommits, hi]⟩

/-- C2: under non-lenient policy, if the commit at any position `k` of the
validated instant sequence fails, the run ends rolled back: a hard reset to
the head snapshotted before the first commit runs, the final repository
equals that snapshot, and every commit of the failed run is discarded. -/
theorem c2_rollback (ok : Nat → Bool) (futureYear : Int) (repo dates kept : List Int)
    (k : Nat) (hfilter : filterDates false futureYear dates = .ok kept)
    (hk : k < kept.length) (hfail : ok k = false) :
    runSequencer false ok futureYear repo dates = (.rolledBack, repo, true) := by
  obtain ⟨r0, hr⟩ := applyCommits_strict_fails ok kept 0 repo
    ⟨k, hk, by rw [Nat.zero_add]; exact hfail⟩
  simp only [runSequencer, processDates, hfilter, hr]

/-- Witness for C2: one valid date, the first commit fails. -/
theorem c2_rollback_witness :
    runSequencer false (fun _ => false) (futureNowYear 2024) [5] [0] =
      (.rolledBack, [5], true) :=
  c2_rollback (fun _ => false) (futureNowYear 2024) [5] [0] [0] 0 rfl (by decide) rfl

/-- The range check succeeds exactly on years in `[1970, futureYear - 1]`. -/
theorem checkDateRange_ok_iff (futureYear : Int) (t : Int) :
    checkDateRange futureYear t = .ok () ↔
      1970 ≤ yearOf t ∧ yearOf t ≤ futureYear - 1 := by
  unfold checkDateRange
  split_ifs with h1 h2
  · constructor
    · intro h
      exact absurd h (by simp)
    · omega
  · constructor
    · intro h
      exact absurd h (by simp)
    · omega
  · constructor
    · intro _
      omega
    · intro _
      rfl

/-- In lenient mode the validation pass never throws: it keeps exactly the
dates whose range check succeeds, in order. -/
theorem filterDates_lenient_eq (futureYear : Int) :
    ∀ dates, filterDates true futureYear dates =
      .ok (dates.filter fun t => exceptOk (checkDateRange futureYear t)) := by
  intro dates
  induction dates with
  | nil => rfl
  | cons t rest ih =>
    cases h : checkDateRange futureYear t with
    | ok u =>
      cases u
      simp [filterDates, h, ih, List.filter_cons, exceptOk]
    | error e =>
      simp [filterDates, h, ih, List.filter_cons, exceptOk]

/-- In non-lenient mode, any failing date makes the validation pass throw. -/
theorem filterDates_strict_error (futureYear : Int) :
    ∀ dates, (∃ t ∈ dates, exceptOk (checkDateRange futureYear t) = false) →
      ∃ e, filterDates false futureYear dates = .error e := by
  intro dates
  induction dates with
  | nil =>
    rintro ⟨t, ht, _⟩
    exact absurd ht (by simp)
  | cons a rest ih =>
    rintro ⟨t, ht, hbad⟩
    cases h : checkDateRange futureYear a with
    | error e => exact ⟨e, by simp [filterDates, h]⟩
    | ok u =>
      cases u
      have htr : t ∈ rest := by
        rcases List.mem_cons.mp ht with h1 | h1
        · subst h1
          rw [h] at hbad
          simp [exceptOk] at hbad
        · exact h1
      obtain ⟨e, he⟩ := ih ⟨t, htr, hbad⟩
      exact ⟨e, by simp [filterDates, h, he]⟩

/-- C5: with `futureNow` landing in year `currentYear + 74`, the range check
accepts exactly the years in `[1970, currentYear + 74)`: year 1969 always
fails low, year `currentYear + 74` always fails high, year
`currentYear + 73` always passes; in lenient mode a failing instant is
dropped and the rest proceed, and in non-lenient mode a failing instant
aborts the run before any commit is created (the error leaves the
repository untouched). -/
theorem c5_range_validation (currentYear : Int) (hcy : 1970 ≤ currentYear) :
    (∀ t, checkDateRange (futureNowYear currentYear) t = .ok () ↔
        1970 ≤ yearOf t ∧ yearOf t < currentYear + 74)
    ∧ (∀ t, yearOf t = 1969 →
        checkDateRange (futureNowYear currentYear) t = .error .before1970)
    ∧ (∀ t, yearOf t = currentYear + 74 →
        checkDateRange (futureNowYear currentYear) t = .error .afterFuture)
    ∧ (∀ t, yearOf t = currentYear + 73 →
        checkDateRange (futureNowYear currentYear) t = .ok ())
    ∧ (∀ dates, filterDates true (futureNowYear currentYear) dates =
        .ok (dates.filter fun t => exceptOk (checkDateRange (futureNowYear currentYear) t)))
    ∧ (∀ ok repo dates,
        (∃ t ∈ dates, exceptOk (checkDateRange (futureNowYear currentYear) t) = false) →
        (∃ e, processDates false ok (futureNowYear currentYear) repo dates =
            .error (.range e, repo)) ∧
        runSequencer false ok (futureNowYear currentYear) repo dates =
          (.rolledBack, repo, true)) := by
  refine ⟨?_, ?_, ?_, ?_, filterDates_lenient_eq _, ?_⟩
  · intro t
    rw [checkDateRange_ok_iff]
    unfold futureNowYear
    omega
  · intro t ht
    unfold checkDateRange
    rw [ht]
    norm_num
  · intro t ht
    unfold checkDateRange futureNowYear
    rw [ht]
    rw [if_neg (by omega), if_pos (by omega)]
  · intro t ht
    unfold checkDateRange futureNowYear
    rw [ht]
    rw [if_neg (by omega), if_neg (by omega)]
  · intro ok repo dates hbad
    obtain ⟨e, he⟩ := filterDates_strict_error (futureNowYear currentYear) dates hbad
    refine ⟨⟨e, ?_⟩, ?_⟩
    · simp only [processDates, he]
    · simp only [runSequencer, processDates, he]

/-- Witness for C5 at `currentYear = 2024` and the instant 1969-01-01. -/
theorem c5_range_validation_witness :
    checkDateRange (futureNowYear 2024) (parseDate 1969 1 1) =
      .error DateRangeError.before1970 ∧
    runSequencer false (fun _ => true) (futureNowYear 2024) [] [parseDate 1969 1 1] =
      (.rolledBack, [], true) := by
  have h := c5_range_validation 2024 (by norm_num)
  exact ⟨h.2.1 _ (by decide),
    (h.2.2.2.2.2 (fun _ => true) [] [parseDate 1969 1 1]
      ⟨parseDate 1969 1 1, by simp, by decide⟩).2⟩

/-- Counterexample to C8: a non-lenient range error is raised before any
commit is attempted, yet the run does perform the hard reset (the reported
flag is `true`), because validation happens inside the guarded phase. -/
theorem c8_counterexample :
    runSequencer false (fun _ => true) (futureNowYear 2024) [7] [parseDate 1969 6 1] =
      (.rolledBack, [7], true) := by decide

/-- C8 (amended): errors raised before the snapshot — resolver format and
sequencing errors — abort the run with the repository untouched and no hard
reset; a non-lenient range error from date validation, although raised
before any commit is created, is caught by the apply-phase guard and does
trigger a hard reset to the snapshot just captured, leaving the head equal
to that snapshot. -/
theorem c8_preflight_amended :
    (∀ tz dir lenient ok currentYear repo tokens e,
        resolve tz dir tokens = .error e →
        runPipeline tz dir lenient ok currentYear repo tokens =
          (.resolverError e, repo, false))
    ∧ (∀ ok currentYear repo dates e,
        filterDates false (futureNowYear currentYear) dates = .error e →
        runSequencer false ok (futureNowYear currentYear) repo dates =
          (.rolledBack, repo, true)) := by
  constructor
  · intro tz dir lenient ok currentYear repo tokens e h
    simp only [runPipeline, h]
  · intro ok currentYear repo dates e h
    simp only [runSequencer, processDates, h]

/-- Witness for C8 (amended): a leading offset token aborts with no reset;
an 1880 date under non-lenient policy triggers the reset with head
preserved. -/
theorem c8_preflight_amended_witness :
    runPipeline 0 .plus false (fun _ => true) 2024 [3] [.num 5] =
      (.resolverError .sequencingError, [3], false) ∧
    runSequencer false (fun _ => true) (futureNowYear 2024) [3] [parseDate 1880 2 2] =
      (.rolledBack, [3], true) := by
  have h := c8_preflight_amended
  exact ⟨h.1 0 .plus false (fun _ => true) 2024 [3] [.num 5] .sequencingError rfl,
         h.2 (fun _ => true) 2024 [3] [parseDate 1880 2 2] .before1970 rfl⟩

/-- Counterexample to C9: at 3599000 ms the code renders `"00m 00s"`, not
the 3600 whole seconds (`"60m 00s"`) that the claim's general formula
produces — the minutes field wraps at one hour. -/
theorem c9_counterexample :
    formatMilliseconds 3599000 ≠ specFormatSeconds (3599000 / 1000 + 1) := by decide

/-- C9 (amended): `formatMilliseconds 0 = "00m 01s"` and
`formatMilliseconds 59000 = "01m 00s"`; in general the rendered value
equals `floor(ms/1000) + 1` reduced modulo 3600, formatted as `MMm SSs` —
the minutes field wraps at one hour. -/
theorem c9_format_amended :
    formatMilliseconds 0 = "00m 01s" ∧
    formatMilliseconds 59000 = "01m 00s" ∧
    ∀ ms : Nat, formatMilliseconds ms = specFormatSeconds ((ms / 1000 + 1) % 3600) := by
  refine ⟨by decide, by decide, ?_⟩
  intro ms
  unfold formatMilliseconds specFormatSeconds
  rw [Nat.mod_mod_of_dvd _ (by norm_num)]

end CommitCanvas
